import Mathlib

/-!
Shallow embedding of the dam-song-tools-oss OKD codec, translated from
the Python sources under `src/`.  Byte streams are modelled
consume-style: a `List Nat` of byte values; a reader returns the value
read together with the remaining list (Python's `BufferedReader` position
advancing corresponds to dropping consumed bytes, and `peek` leaves the
list unchanged).  Fallible code returns `Except`.  Error kinds follow
the taxonomy of the specification, keyed by the `ValueError` /
`RuntimeError` messages of the source: `shortRead` is
"Too less read bytes.", `badStatusByte` / `badDataByte` are the invalid
status/data byte errors, and `badVarint` covers both
"Invalid byte sequence." (on read) and "Too big argument `value`."
(on write).
-/

namespace DamOkd

deriving instance DecidableEq for Except

/-! ## `src/okd/okd_midi.py`: byte-level readers -/

inductive MidiErr where
  | shortRead
  | badStatusByte
  | badDataByte
  | badVarint
  deriving DecidableEq, Repr

/-- `read_data_byte`: read one byte, which must have bit 7 clear. -/
def read_data_byte : List Nat → Except MidiErr (Nat × List Nat)
  | [] => .error .shortRead
  | b :: rest => if b &&& 0x80 == 0x80 then .error .badDataByte else .ok (b, rest)

/-- `peek_data_byte`: like `read_data_byte` but without consuming the
byte (`stream.seek(-1, os.SEEK_CUR)` after the read). -/
def peek_data_byte : List Nat → Except MidiErr Nat
  | [] => .error .shortRead
  | b :: _ => if b &&& 0x80 == 0x80 then .error .badDataByte else .ok b

/-- `read_variable_int`: the `for i in range(3)` loop unrolled.  At step
`i` the value accumulates `byte <<< (i * 6)` (the full byte read,
continuation bit included) and the loop returns at the first byte with
bit `0x40` clear; after three continuation bytes it raises
"Invalid byte sequence." (`badVarint`). -/
def read_variable_int (s : List Nat) : Except MidiErr (Nat × List Nat) :=
  match read_data_byte s with
  | .error e => .error e
  | .ok (b0, s0) =>
    let v0 := 0 + (b0 <<< 0)
    if b0 &&& 0x40 != 0x40 then .ok (v0, s0)
    else
      match read_data_byte s0 with
      | .error e => .error e
      | .ok (b1, s1) =>
        let v1 := v0 + (b1 <<< 6)
        if b1 &&& 0x40 != 0x40 then .ok (v1, s1)
        else
          match read_data_byte s1 with
          | .error e => .error e
          | .ok (b2, s2) =>
            let v2 := v1 + (b2 <<< 12)
            if b2 &&& 0x40 != 0x40 then .ok (v2, s2)
            else .error .badVarint

/-- One element per iteration of the `write_variable_int` loop: the
triple `(0x3F <<< (i * 6), i * 6, 0x40 <<< (i * 6))` for `i = 0, 1, 2`
(mask, shift amount, continuation subtrahend). -/
def write_variable_int_consts : List (Nat × Nat × Nat) :=
  [(0x3F, 0, 0x40), (0xFC0, 6, 0x1000), (0x3F000, 12, 0x40000)]

/-- The loop body of `write_variable_int`, one recursive step per
iteration.  The byte is the masked 6-bit group shifted down; if a
nonzero remainder is left, the byte gets the continuation bit and
`0x40 << (i*6)` is subtracted from the remainder.  After emitting a
byte, if the remainder reached zero and the byte carried the
continuation bit, an extra `0x00` byte is emitted and the loop breaks. -/
def write_variable_int_loop (value : Nat) : List (Nat × Nat × Nat) → List Nat
  | [] => []
  | (mask, sh, sub) :: consts =>
    let masked_value := value &&& mask
    let byte0 := masked_value >>> sh
    let next_value := value - masked_value
    let byte := if next_value != 0 then byte0 ||| 0x40 else byte0
    let value1 := if next_value != 0 then next_value - sub else next_value
    if value1 == 0 then
      [byte] ++ (if byte &&& 0x40 == 0x40 then [0x00] else [])
    else
      byte :: write_variable_int_loop value1 consts

/-- The byte sequence emitted by a successful `write_variable_int`. -/
def write_variable_int_bytes (value : Nat) : List Nat :=
  write_variable_int_loop value write_variable_int_consts

/-- `write_variable_int`: values above `0x04103F` raise
"Too big argument `value`." (`badVarint`); otherwise the loop emits
`write_variable_int_bytes value`. -/
def write_variable_int (value : Nat) : Except MidiErr (List Nat) :=
  if 0x04103F < value then .error .badVarint
  else .ok (write_variable_int_bytes value)

/-- The `while True` loop of `read_extended_variable_int`: peek a data
byte; a `0x00` byte ("Maybe End of Track") returns the accumulated
value without consuming it, a peek failure (`except ValueError`) breaks
the loop, and otherwise a variable int is read and accumulated.  The
loop terminates because a successful `read_variable_int` consumes at
least one byte. -/
def read_extended_variable_int_loop (value : Nat) (s : List Nat) :
    Except MidiErr (Nat × List Nat) :=
  match peek_data_byte s with
  | .error _ => .ok (value, s)
  | .ok byte =>
    if byte == 0x00 then .ok (value, s)
    else
      match hr : read_variable_int s with
      | .error e => .error e
      | .ok (v, s1) => read_extended_variable_int_loop (value + v) s1
termination_by s.length
decreasing_by
  simp_wf
  have hlen : ∀ (t : List Nat) (b : Nat) (r : List Nat),
      read_data_byte t = .ok (b, r) → r.length < t.length := by
    intro t b r h
    cases t with
    | nil => simp [read_data_byte] at h
    | cons x xs =>
      simp only [read_data_byte] at h
      by_cases hx : x &&& 0x80 == 0x80
      · simp [hx] at h
      · simp [hx] at h
        simp [← h.2]
  unfold read_variable_int at hr
  cases h0 : read_data_byte s with
  | error e => rw [h0] at hr; simp at hr
  | ok p0 =>
    obtain ⟨b0, s0⟩ := p0
    rw [h0] at hr
    have hs0 := hlen s b0 s0 h0
    dsimp only at hr
    split at hr
    · simp only [Except.ok.injEq, Prod.mk.injEq] at hr
      obtain ⟨-, hrest⟩ := hr
      subst hrest
      exact hs0
    · cases h1 : read_data_byte s0 with
      | error e => rw [h1] at hr; simp at hr
      | ok p1 =>
        obtain ⟨b1, t1⟩ := p1
        rw [h1] at hr
        have hs1 := hlen s0 b1 t1 h1
        dsimp only at hr
        split at hr
        · simp only [Except.ok.injEq, Prod.mk.injEq] at hr
          obtain ⟨-, hrest⟩ := hr
          subst hrest
          omega
        · cases h2 : read_data_byte t1 with
          | error e => rw [h2] at hr; simp at hr
          | ok p2 =>
            obtain ⟨b2, t2⟩ := p2
            rw [h2] at hr
            have hs2 := hlen t1 b2 t2 h2
            dsimp only at hr
            split at hr
            · simp only [Except.ok.injEq, Prod.mk.injEq] at hr
              obtain ⟨-, hrest⟩ := hr
              subst hrest
              omega
            · simp at hr

/-- `read_extended_variable_int` from `src/okd/okd_midi.py`. -/
def read_extended_variable_int (s : List Nat) : Except MidiErr (Nat × List Nat) :=
  read_extended_variable_int_loop 0 s

/-- `write_extended_variable_int` from `src/okd/okd_midi.py`: while the
value is positive, write `min value 0x04103F` as a variable int and
subtract it. -/
def write_extended_variable_int (value : Nat) : Except MidiErr (List Nat) :=
  if 0 < value then
    let write_value := min value 0x04103F
    match write_variable_int write_value with
    | .error e => .error e
    | .ok bs =>
      match write_extended_variable_int (value - write_value) with
      | .error e => .error e
      | .ok bs2 => .ok (bs ++ bs2)
  else .ok []
termination_by value
decreasing_by omega


/-! ## Well-formed variable ints and their values -/

/-- The little-endian base-64 value `Σᵢ bᵢ · 64ⁱ` of a byte list. -/
def varint_value : List Nat → Nat
  | [] => 0
  | b :: rest => b + 64 * varint_value rest

/-- A well-formed variable int: one to three bytes, each with bit 7
clear, every byte but the last with bit 6 (the continuation bit) set,
and the last byte with bit 6 clear. -/
def is_wellformed_varint (bs : List Nat) : Prop :=
  match bs with
  | [b0] => b0 &&& 0x80 ≠ 0x80 ∧ b0 &&& 0x40 ≠ 0x40
  | [b0, b1] => b0 &&& 0x80 ≠ 0x80 ∧ b0 &&& 0x40 = 0x40 ∧
      b1 &&& 0x80 ≠ 0x80 ∧ b1 &&& 0x40 ≠ 0x40
  | [b0, b1, b2] => b0 &&& 0x80 ≠ 0x80 ∧ b0 &&& 0x40 = 0x40 ∧
      b1 &&& 0x80 ≠ 0x80 ∧ b1 &&& 0x40 = 0x40 ∧
      b2 &&& 0x80 ≠ 0x80 ∧ b2 &&& 0x40 ≠ 0x40
  | _ => False


/-! ## `src/okd/okd_file_scramble.py`: the XOR scramble codec

The 256-entry pattern table `OKD_SCRAMBLE_PATTERN` lives in
`okd_scramble_pattern.py`, which is not among the sources; per the
specification it is "a fixed 256-entry table of 16-bit patterns", so the
codec below is parametrized by a table `pattern : Nat → Nat` (looked up
at an index already reduced `% 0x100`), with the 16-bit bound carried as
a hypothesis where needed. -/

inductive ScrambleErr where
  | oddChunk
  | overflow
  deriving DecidableEq, Repr

/-- `scramble(input, output, scramble_pattern_index)` with `length=None`:
read 2 bytes, XOR the big-endian word with
`OKD_SCRAMBLE_PATTERN[index % 0x100]`, emit 2 big-endian bytes,
increment the index; at end of stream return the final index `% 0x100`.
A trailing odd byte raises the "length must be 2" `ValueError`, and a
word that does not fit `to_bytes(2, "big")` raises `OverflowError`. -/
def scramble (pattern : Nat → Nat) : List Nat → Nat → Except ScrambleErr (List Nat × Nat)
  | [], scramble_pattern_index => .ok ([], scramble_pattern_index % 0x100)
  | [_], _ => .error .oddChunk
  | hi :: lo :: rest, scramble_pattern_index =>
    let plaintext := hi * 256 + lo
    let scramble_pattern := pattern (scramble_pattern_index % 0x100)
    let scrambled := plaintext ^^^ scramble_pattern
    if scrambled < 0x10000 then
      match scramble pattern rest (scramble_pattern_index + 1) with
      | .ok (out, final_index) => .ok (scrambled / 256 :: scrambled % 256 :: out, final_index)
      | .error e => .error e
    else .error .overflow

/-- `descramble(input, output, scramble_pattern_index)` with
`length=None`: identical to `scramble` with the roles of plaintext and
scrambled word exchanged. -/
def descramble (pattern : Nat → Nat) : List Nat → Nat → Except ScrambleErr (List Nat × Nat)
  | [], scramble_pattern_index => .ok ([], scramble_pattern_index % 0x100)
  | [_], _ => .error .oddChunk
  | hi :: lo :: rest, scramble_pattern_index =>
    let scrambled := hi * 256 + lo
    let scramble_pattern := pattern (scramble_pattern_index % 0x100)
    let plaintext := scrambled ^^^ scramble_pattern
    if plaintext < 0x10000 then
      match descramble pattern rest (scramble_pattern_index + 1) with
      | .ok (out, final_index) => .ok (plaintext / 256 :: plaintext % 256 :: out, final_index)
      | .error e => .error e
    else .error .overflow

/-! ## `src/okd/adpcm.py`: the ADPCM decoder

Python floats are IEEE doubles.  Every value that occurs in
`__decode_sample` is a dyadic rational with at most 6 fractional bits
and magnitude below `2 ^ 19` (the `K0` / `K1` coefficients have 6
fractional bits, the predictors are clamped 16-bit integers), so double
arithmetic on them is exact and `ℚ` models it exactly.  `x << k` on a
Python int with a nonnegative shift is `x * 2 ^ k`, and Python's
`round` rounds halves to even. -/

def SHIFT_LIMIT : Nat := 12
def INDEX_LIMIT : Nat := 3

def K0 : List ℚ := [0.0, 0.9375, 1.796875, 1.53125]
def K1 : List ℚ := [0.0, 0.0, -0.8125, -0.859375]
def SIGNED_NIBBLES : List Int := [0, 1, 2, 3, 4, 5, 6, 7, -8, -7, -6, -5, -4, -3, -2, -1]

inductive AdpcmErr where
  | badShift
  | badIndex
  deriving DecidableEq, Repr

/-- Python's built-in `round`: round half to even. -/
def python_round (q : ℚ) : Int :=
  let f := ⌊q⌋
  let r := q - f
  if r < 1 / 2 then f
  else if 1 / 2 < r then f + 1
  else if f % 2 = 0 then f else f + 1

/-- `AdpcmDecoder.__clamp16`. -/
def clamp16 (value : ℚ) : Int :=
  if 32767 < value then 32767
  else if value < -32768 then -32768
  else python_round value

/-- The decoder state: `self.prev1`, `self.prev2`. -/
structure AdpcmState where
  prev1 : Int
  prev2 : Int
  deriving DecidableEq, Repr

/-- `AdpcmDecoder.__decode_sample`.  (`AdpcmFrame.read` guarantees the
index accesses below are in range; `List.getD` stands for Python's
checked indexing.) -/
def decode_sample (st : AdpcmState) (sp su : Nat) : Except AdpcmErr (Int × AdpcmState) :=
  let shift := sp &&& 0x0F
  if SHIFT_LIMIT < shift then .error .badShift
  else
    let index := sp >>> 4
    if INDEX_LIMIT < index then .error .badIndex
    else
      let sample0 : Int := SIGNED_NIBBLES.getD su 0 * 2 ^ (12 - (shift &&& 0x1F))
      let sample1 : ℚ :=
        (sample0 : ℚ) + K0.getD index 0 * (st.prev1 : ℚ) + K1.getD index 0 * (st.prev2 : ℚ)
      let sample := clamp16 sample1
      .ok (sample, ⟨sample, st.prev1⟩)

/-- The `for i in range(SUB_FRAME_NIBBLES)` loop of
`AdpcmDecoder.__decode_subframe`: first argument is the running index
`i`, second the number of remaining iterations. -/
def decode_subframe_go (sp : Nat) (samples : List Nat) (subframe_index nibble : Nat) :
    Nat → Nat → AdpcmState → Except AdpcmErr (List Int × AdpcmState)
  | _, 0, st => .ok ([], st)
  | i, count + 1, st =>
    let su_index := i * 4 + subframe_index
    let su0 := samples.getD su_index 0
    let su := if nibble != 0 then su0 >>> 4 else su0 &&& 0x0F
    match decode_sample st sp su with
    | .error e => .error e
    | .ok (d, st1) =>
      match decode_subframe_go sp samples subframe_index nibble (i + 1) count st1 with
      | .error e => .error e
      | .ok (rest, st2) => .ok (d :: rest, st2)

/-- `AdpcmDecoder.__decode_subframe`: 28 nibbles, nibble `k` of subframe
`i` taken from byte `samples[k*4 + i]`, decoded high (`>> 4`) when
`nibble != 0` and low (`& 0x0F`) when `nibble == 0`. -/
def decode_subframe (st : AdpcmState) (sp : Nat) (samples : List Nat)
    (subframe_index nibble : Nat) : Except AdpcmErr (List Int × AdpcmState) :=
  decode_subframe_go sp samples subframe_index nibble 0 28 st

/-- The iteration order of `AdpcmDecoder.__decode_frame`:
`for i in range(SUB_FRAMES): for j in range(2)`. -/
def subframe_nibble_order : List (Nat × Nat) :=
  [(0, 0), (0, 1), (1, 0), (1, 1), (2, 0), (2, 1), (3, 0), (3, 1)]

def decode_frame_go (parameters samples : List Nat) :
    List (Nat × Nat) → AdpcmState → Except AdpcmErr (List Int × AdpcmState)
  | [], st => .ok ([], st)
  | (i, j) :: rest, st =>
    let sp_index := j + i * 2 + (if 2 ≤ i then 4 else 0)
    let sp := parameters.getD sp_index 0
    match decode_subframe st sp samples i j with
    | .error e => .error e
    | .ok (d, st1) =>
      match decode_frame_go parameters samples rest st1 with
      | .error e => .error e
      | .ok (ds, st2) => .ok (d ++ ds, st2)

/-- `AdpcmDecoder.__decode_frame` on a frame with the given 16 parameter
bytes and 112 sample bytes. -/
def decode_frame (st : AdpcmState) (parameters samples : List Nat) :
    Except AdpcmErr (List Int × AdpcmState) :=
  decode_frame_go parameters samples subframe_nibble_order st

/-! ## `src/okd/chunks/p_track_info_chunk.py` and
`src/okd/chunks/p_track_chunk.py`: P-track data model -/

def PORTS : Nat := 4
def CHANNELS_PER_PORT : Nat := 16

/-- `PTrackInfoChannelInfoEntry` (field `attr` is the source's
`attribute`, which is a Lean keyword). -/
structure PTrackInfoChannelInfoEntry where
  attr : Nat
  ports : Nat
  control_change_ax : Nat
  control_change_cx : Nat
  deriving DecidableEq, Repr

structure PTrackInfoEntry where
  track_number : Nat
  track_status : Nat
  use_channel_group_flag : Nat
  default_channel_groups : List Nat
  channel_groups : List Nat
  channel_info : List PTrackInfoChannelInfoEntry
  system_ex_ports : Nat
  deriving DecidableEq, Repr

/-- `PTrackInfoEntry.is_lossless_track`. -/
def PTrackInfoEntry.is_lossless_track (e : PTrackInfoEntry) : Bool :=
  e.track_status &&& 0x80 == 0x80

/-- `PTrackEvent` (a `MidiTrackEvent` plus the optional duration). -/
structure PTrackEvent where
  status_byte : Nat
  data_bytes : List Nat
  delta_time : Nat
  duration : Option Nat
  deriving DecidableEq, Repr

/-- `MidiEvent.status_byte_type`. -/
def PTrackEvent.status_byte_type (e : PTrackEvent) : Nat :=
  e.status_byte &&& 0xF0

/-- `MidiEvent.channel`. -/
def PTrackEvent.channel (e : PTrackEvent) : Nat :=
  e.status_byte &&& 0x0F

structure PTrackAbsoluteTimeEvent where
  status_byte : Nat
  data_bytes : List Nat
  port : Nat
  track : Nat
  time : Nat
  deriving DecidableEq, Repr

/-- Stand-in for Python's checked `channel_info[channel]` access
(readers always produce 16 entries). -/
def default_channel_info_entry : PTrackInfoChannelInfoEntry :=
  { attr := 0, ports := 0, control_change_ax := 0, control_change_cx := 0 }

/-- `PTrackChunk.__relocate_event`. -/
def relocate_event (track_info_entry : PTrackInfoEntry) (status_byte0 : Nat)
    (data_bytes0 : List Nat) (time : Nat) (group_channel : Bool) :
    List PTrackAbsoluteTimeEvent :=
  -- Compensation of Alternative CC: data byte 0 is the true status
  let status_byte := if status_byte0 == 0xFE then data_bytes0.getD 0 0 else status_byte0
  let data_bytes := if status_byte0 == 0xFE then data_bytes0.drop 1 else data_bytes0
  let status_type := status_byte &&& 0xF0
  if status_type == 0xF0 then
    (List.range PORTS).filterMap (fun port =>
      if (track_info_entry.system_ex_ports >>> port) &&& 0x0001 == 0x0001 then
        some { status_byte := status_byte, data_bytes := data_bytes, port := port,
               track := port * CHANNELS_PER_PORT, time := time }
      else none)
  else
    let channel := status_byte &&& 0x0F
    let channel_info_entry :=
      track_info_entry.channel_info.getD channel default_channel_info_entry
    let dcg := track_info_entry.default_channel_groups.getD channel 0
    -- Fill default channel group
    let default_channel_group := if dcg == 0x0000 then 0x0001 <<< channel else dcg
    (List.range PORTS).flatMap (fun port =>
      if (channel_info_entry.ports >>> port) &&& 0x0001 == 0x0001 then
        (List.range CHANNELS_PER_PORT).filterMap (fun grouped_channel =>
          let group := if group_channel then
              track_info_entry.channel_groups.getD channel 0
            else default_channel_group
          if (group >>> grouped_channel) &&& 0x0001 == 0x0001 then
            some { status_byte := status_type ||| grouped_channel, data_bytes := data_bytes,
                   port := port, track := port * CHANNELS_PER_PORT + grouped_channel,
                   time := time }
          else none)
      else [])

/-- The loop body of `PTrackChunk.absolute_time_track`, processing one
stored event once `absolute_time` has been advanced by its delta time. -/
def absolute_time_track_event (track_info_entry : PTrackInfoEntry)
    (is_lossless_track channel_grouping_enabled : Bool) (absolute_time : Nat)
    (event : PTrackEvent) : List PTrackAbsoluteTimeEvent :=
  let status_type := event.status_byte_type
  if status_type == 0x80 then
    let channel := event.channel
    let note_number := event.data_bytes.getD 0 0
    let note_on_velocity := event.data_bytes.getD 1 0
    let note_off_velocity := event.data_bytes.getD 2 0
    let duration0 := event.duration.getD 0
    let duration := if !is_lossless_track then duration0 <<< 2 else duration0
    relocate_event track_info_entry (0x90 ||| channel) [note_number, note_on_velocity]
      absolute_time channel_grouping_enabled ++
    relocate_event track_info_entry (0x80 ||| channel) [note_number, note_off_velocity]
      (absolute_time + duration) channel_grouping_enabled
  else if status_type == 0x90 then
    let channel := event.channel
    let note_number := event.data_bytes.getD 0 0
    let duration0 := event.duration.getD 0
    let duration := if !is_lossless_track then duration0 <<< 2 else duration0
    relocate_event track_info_entry event.status_byte event.data_bytes
      absolute_time channel_grouping_enabled ++
    relocate_event track_info_entry (0x80 ||| channel) [note_number, 0x40]
      (absolute_time + duration) channel_grouping_enabled
  else if status_type == 0xA0 then
    let channel := event.channel
    let channel_info_entry :=
      track_info_entry.channel_info.getD channel default_channel_info_entry
    relocate_event track_info_entry (0xB0 ||| channel)
      [channel_info_entry.control_change_ax, event.data_bytes.getD 0 0]
      absolute_time channel_grouping_enabled
  else if status_type == 0xC0 then
    let channel := event.channel
    let channel_info_entry :=
      track_info_entry.channel_info.getD channel default_channel_info_entry
    relocate_event track_info_entry (0xB0 ||| channel)
      [channel_info_entry.control_change_cx, event.data_bytes.getD 0 0]
      absolute_time channel_grouping_enabled
  else
    relocate_event track_info_entry event.status_byte event.data_bytes
      absolute_time channel_grouping_enabled

/-- The `for event in self.events` loop of
`PTrackChunk.absolute_time_track`, threading the absolute time and the
channel-grouping flag (`channel_grouping_enabled = event.status_byte ==
0xFD` after each event). -/
def absolute_time_track_go (track_info_entry : PTrackInfoEntry) (is_lossless_track : Bool) :
    Nat → Bool → List PTrackEvent → List PTrackAbsoluteTimeEvent
  | _, _, [] => []
  | absolute_time, channel_grouping_enabled, event :: rest =>
    let absolute_time1 := absolute_time + event.delta_time
    absolute_time_track_event track_info_entry is_lossless_track channel_grouping_enabled
      absolute_time1 event ++
    absolute_time_track_go track_info_entry is_lossless_track absolute_time1
      (event.status_byte == 0xFD) rest

/-- Python's `list.sort` is a stable sort; a stable structural
insertion sort by the `time` key models it (and, unlike a well-founded
merge sort, evaluates inside the kernel).  An element is inserted after
every earlier element with a strictly smaller key and before later
elements with a greater-or-equal key, preserving the original order of
equal keys. -/
def insert_by_time (e : PTrackAbsoluteTimeEvent) :
    List PTrackAbsoluteTimeEvent → List PTrackAbsoluteTimeEvent
  | [] => [e]
  | x :: xs => if x.time < e.time then x :: insert_by_time e xs else e :: x :: xs

def sort_by_time : List PTrackAbsoluteTimeEvent → List PTrackAbsoluteTimeEvent
  | [] => []
  | x :: xs => insert_by_time x (sort_by_time xs)

/-- `PTrackChunk.absolute_time_track`, starting after the matching
track-info entry has been found: process all events from time 0 with
grouping off, then sort (stably) by absolute time. -/
def absolute_time_track (track_info_entry : PTrackInfoEntry) (events : List PTrackEvent) :
    List PTrackAbsoluteTimeEvent :=
  sort_by_time (absolute_time_track_go track_info_entry
    track_info_entry.is_lossless_track 0 false events)

/-! ## `src/okd/okd_file.py`: header and file serialization -/

/-- `int.to_bytes(n, "big")` (within range; the source only serializes
in-range values). -/
def int_to_bytes_be (n v : Nat) : List Nat :=
  (List.range n).map (fun i => v / 256 ^ (n - 1 - i) % 256)

/-- A generic OKD header: the five fixed fields plus the optional data
(`_optional_data_buffer`) as raw bytes, `version` as its ASCII bytes. -/
structure OkdHeader where
  length : Nat
  version : List Nat
  id_karaoke : Nat
  adpcm_offset : Nat
  encryption_mode : Nat
  optional_data : List Nat
  deriving DecidableEq, Repr

/-- `OkdHeaderBase.write`: magic `b"YKS1"`, length, version padded with
`ljust(16, b"\x00")`, three ints, optional data length, optional data. -/
def okd_header_write (h : OkdHeader) : List Nat :=
  [0x59, 0x4B, 0x53, 0x31] ++
  int_to_bytes_be 4 h.length ++
  (h.version ++ List.replicate (16 - h.version.length) 0x00) ++
  int_to_bytes_be 4 h.id_karaoke ++
  int_to_bytes_be 4 h.adpcm_offset ++
  int_to_bytes_be 4 h.encryption_mode ++
  int_to_bytes_be 4 h.optional_data.length ++
  h.optional_data

/-- `GenericChunk`: a chunk id with a raw payload
(`_payload_buffer`). -/
structure GenericChunk where
  id : List Nat
  payload : List Nat
  deriving DecidableEq, Repr

/-- `ChunkBase.write`: id, 4-byte big-endian length of the (padded)
payload, payload padded to even length. -/
def chunk_write (c : GenericChunk) : List Nat :=
  let payload_buffer := c.payload
  let payload_buffer :=
    if payload_buffer.length % 2 != 0 then payload_buffer ++ [0x00] else payload_buffer
  c.id ++ int_to_bytes_be 4 payload_buffer.length ++ payload_buffer

/-- `OkdFile`: a header and the chunk list it owns. -/
structure OkdFile where
  header : OkdHeader
  chunks : List GenericChunk
  deriving DecidableEq, Repr

/-- `OkdFile.write(stream, should_scramble)`.  Python mutates
`self.header.length` and `self.header.encryption_mode` before
serializing; the mutation is modelled by returning the updated file
value alongside the bytes written.  `choose_scramble_pattern_index()`
is `randint(0x00, 0xFF)`, modelled by the explicit
`scramble_pattern_index` argument; both `scramble` calls receive the
same index, as in the source.  `OkdHeaderBase.FIXED_PART_LENGTH` is
40. -/
def OkdFile.write (f : OkdFile) (should_scramble : Bool) (pattern : Nat → Nat)
    (scramble_pattern_index : Nat) : OkdFile × Except ScrambleErr (List Nat) :=
  let chunks_buffer := (f.chunks.map chunk_write).flatten
  let header1 : OkdHeader :=
    { f.header with
      length := 40 + f.header.optional_data.length + chunks_buffer.length - 8,
      encryption_mode := if should_scramble then 1 else 0 }
  let f1 : OkdFile := { f with header := header1 }
  let header_buffer := okd_header_write header1
  let out :=
    if should_scramble then
      match scramble pattern header_buffer scramble_pattern_index with
      | .error e => .error e
      | .ok (hb, _) =>
        match scramble pattern chunks_buffer scramble_pattern_index with
        | .error e => .error e
        | .ok (cb, _) => .ok (hb ++ cb ++ [0x00, 0x00, 0x00, 0x00])
    else .ok (header_buffer ++ chunks_buffer ++ [0x00, 0x00, 0x00, 0x00])
  (f1, out)

/-! ## `src/okd/p_track_conversion.py`: `__midi_to_absolute_time_tracks`

Python's `[[]] * PTrackChunk.PORTS` builds a list of four references to
one single list object, so the per-port accumulator is modelled with an
explicit store from addresses to event lists: the accumulator is
`List.replicate 4 0` — four copies of the one address `0` at which the
single empty list was allocated.  `absolute_time_tracks[port].append`
becomes an update of the store at the address found at index `port`
(an out-of-range `port` raises `IndexError`).  The `MidiTimeConverter`
(`midi/time_converter.py`, not among the sources) is abstracted as the
tick-to-millisecond function `conv`, and `get_track_port` as the
precomputed `port` field; each input message carries its raw bytes
`midi_message.bin()` and its delta time. -/

structure MidiTrackData where
  port : Option Nat
  messages : List (List Nat × Nat)
  deriving DecidableEq, Repr

inductive ConvErr where
  | indexError
  deriving DecidableEq, Repr

def store_update (store : Nat → List PTrackAbsoluteTimeEvent) (a : Nat)
    (f : List PTrackAbsoluteTimeEvent → List PTrackAbsoluteTimeEvent) :
    Nat → List PTrackAbsoluteTimeEvent :=
  fun x => if x = a then f (store x) else store x

/-- The `for midi_message in midi_track` loop: accumulate the track
time, build the absolute-time event, append it to the list at address
`a` (the object `absolute_time_tracks[port]` refers to). -/
def midi_track_messages_loop (conv : Nat → Nat) (port a : Nat) :
    List (List Nat × Nat) → Nat → (Nat → List PTrackAbsoluteTimeEvent) →
    (Nat → List PTrackAbsoluteTimeEvent)
  | [], _, store => store
  | (bin, time) :: rest, track_time, store =>
    let status_byte := bin.getD 0 0
    let status_type := status_byte &&& 0xF0
    let data_bytes := bin.drop 1
    let track_time1 := track_time + time
    let absolute_time := conv track_time1
    let track :=
      if status_type == 0xF0 then port * CHANNELS_PER_PORT
      else port * CHANNELS_PER_PORT + (status_byte &&& 0x0F)
    let ev : PTrackAbsoluteTimeEvent :=
      { status_byte := status_byte, data_bytes := data_bytes, port := port,
        track := track, time := absolute_time }
    midi_track_messages_loop conv port a rest track_time1
      (store_update store a (fun l => l ++ [ev]))

/-- The `for i, midi_track in enumerate(midi.tracks)` loop: tracks with
no port are skipped with a warning; otherwise events are appended to
the list at `addresses[port]`. -/
def midi_tracks_loop (conv : Nat → Nat) (addresses : List Nat) :
    List MidiTrackData → (Nat → List PTrackAbsoluteTimeEvent) →
    Except ConvErr (Nat → List PTrackAbsoluteTimeEvent)
  | [], store => .ok store
  | t :: rest, store =>
    match t.port with
    | none => midi_tracks_loop conv addresses rest store
    | some port =>
      match addresses[port]? with
      | none => .error .indexError
      | some a =>
        midi_tracks_loop conv addresses rest
          (midi_track_messages_loop conv port a t.messages 0 store)

/-- `__midi_to_absolute_time_tracks`: allocate
`absolute_time_tracks = [[]] * PTrackChunk.PORTS` (one shared list at
address 0), run the track loop, sort each sub-list (the shared list,
four times) and return the four sub-lists. -/
def midi_to_absolute_time_tracks (conv : Nat → Nat) (tracks : List MidiTrackData) :
    Except ConvErr (List (List PTrackAbsoluteTimeEvent)) :=
  let addresses : List Nat := List.replicate PORTS 0
  let store0 : Nat → List PTrackAbsoluteTimeEvent := fun _ => []
  match midi_tracks_loop conv addresses tracks store0 with
  | .error e => .error e
  | .ok store =>
    let store1 := addresses.foldl
      (fun st a => store_update st a sort_by_time) store
    .ok (addresses.map store1)

/-! ## Concrete test fixtures used by witnesses and evaluations -/

/-- An ADPCM frame sample buffer: byte `0x21` (high nibble `0x2`, low
nibble `0x1`) at position 0 — the nibble position of subframe 0 —
and zeros elsewhere. -/
def adpcm_test_samples : List Nat := 0x21 :: List.replicate 111 0

/-- A P-track info entry routing channel messages and SysEx to port 0
only, with no channel grouping. -/
def sample_info_entry : PTrackInfoEntry :=
  { track_number := 1, track_status := 0, use_channel_group_flag := 0,
    default_channel_groups := List.replicate 16 0,
    channel_groups := List.replicate 16 0,
    channel_info := List.replicate 16 ⟨0, 1, 0, 0⟩,
    system_ex_ports := 1 }

/-! ## Arithmetic facts about the bitwise operations used above -/

theorem and_div_two_pow (a b : Nat) : ∀ k, (a &&& b) / 2 ^ k = a / 2 ^ k &&& b / 2 ^ k
  | 0 => by simp
  | k+1 => by
    rw [pow_succ, ← Nat.div_div_eq_div_mul, ← Nat.div_div_eq_div_mul, ← Nat.div_div_eq_div_mul,
      and_div_two_pow a b k, Nat.and_div_two]

theorem and_3F (x : Nat) : x &&& 0x3F = x % 64 := by
  have h := Nat.and_pow_two_sub_one_eq_mod x 6
  norm_num at h
  exact h

theorem and_FC0 (x : Nat) : x &&& 0xFC0 = x / 64 % 64 * 64 := by
  have hd : (x &&& 0xFC0) / 64 = x / 64 % 64 := by
    have h := and_div_two_pow x 0xFC0 6
    norm_num at h
    rw [h]
    exact and_3F (x / 64)
  have hm : (x &&& 0xFC0) % 64 = 0 := by
    have h1 : (x &&& 0xFC0) &&& 0x3F = x &&& (0xFC0 &&& 0x3F) := Nat.and_assoc x 0xFC0 0x3F
    have h2 : (0xFC0 &&& 0x3F : Nat) = 0 := by decide
    rw [h2] at h1
    simp at h1
    rw [← and_3F]
    exact h1
  omega

theorem and_3F000 (x : Nat) : x &&& 0x3F000 = x / 4096 % 64 * 4096 := by
  have hd : (x &&& 0x3F000) / 4096 = x / 4096 % 64 := by
    have h := and_div_two_pow x 0x3F000 12
    norm_num at h
    rw [h]
    exact and_3F (x / 4096)
  have hm : (x &&& 0x3F000) % 4096 = 0 := by
    have h1 : (x &&& 0x3F000) &&& 0xFFF = x &&& (0x3F000 &&& 0xFFF) :=
      Nat.and_assoc x 0x3F000 0xFFF
    have h2 : (0x3F000 &&& 0xFFF : Nat) = 0 := by decide
    rw [h2] at h1
    simp at h1
    have h3 := Nat.and_pow_two_sub_one_eq_mod (x &&& 0x3F000) 12
    norm_num at h3
    rw [← h3]
    exact h1
  omega

theorem or_64 (b : Nat) (hb : b < 64) : b ||| 0x40 = b + 64 := by
  revert b; decide

theorem shiftRight6 (x : Nat) : x >>> 6 = x / 64 := by
  rw [Nat.shiftRight_eq_div_pow]

theorem shiftRight12 (x : Nat) : x >>> 12 = x / 4096 := by
  rw [Nat.shiftRight_eq_div_pow]

theorem shiftLeft6 (x : Nat) : x <<< 6 = x * 64 := by
  rw [Nat.shiftLeft_eq]

theorem shiftLeft12 (x : Nat) : x <<< 12 = x * 4096 := by
  rw [Nat.shiftLeft_eq]

theorem or64_mod (x : Nat) : x % 64 ||| 0x40 = x % 64 + 64 :=
  or_64 (x % 64) (Nat.mod_lt x (by norm_num))

theorem cont_plus64 (x : Nat) : ((x % 64 + 64) &&& 0x40 == 0x40) = true := by
  have h : ∀ b < 64, ((b + 64) &&& 0x40 == 0x40) = true := by decide
  exact h (x % 64) (Nat.mod_lt x (by norm_num))

theorem cont_mod64 (x : Nat) : ((x % 64) &&& 0x40 == 0x40) = false := by
  have h : ∀ b < 64, (b &&& 0x40 == 0x40) = false := by decide
  exact h (x % 64) (Nat.mod_lt x (by norm_num))

theorem data_byte_lt128 (b : Nat) (hb : b < 128) : (b &&& 0x80 == 0x80) = false := by
  revert b; decide

theorem ncont_lt64 (b : Nat) (hb : b < 64) : (b &&& 0x40 != 0x40) = true := by
  revert b; decide

theorem cont_ge64 (b : Nat) (hb : b < 128) (hb2 : 64 ≤ b) : (b &&& 0x40 != 0x40) = false := by
  revert hb2; revert b; decide

/-! ## Closed form of the variable-int encoder, and the round trip -/

/-- Closed form of `write_variable_int_bytes` on the encodable range:
one byte below `0x40`, two bytes below `0x1040`, three bytes up to
`0x04103F` (the two-byte shapes `[b0, 0x00]` produced by the
extra-`0x00` rule coincide with the formulas). -/
theorem write_variable_int_bytes_eq (v : Nat) (hv : v ≤ 0x04103F) :
    write_variable_int_bytes v =
      if v < 64 then [v]
      else if v < 4160 then [v % 64 + 64, v / 64 - 1]
      else [v % 64 + 64, (v / 64 - 1) % 64 + 64, (v / 64 - 1) / 64 - 1] := by
  unfold write_variable_int_bytes write_variable_int_consts
  rcases Nat.lt_or_ge v 64 with h64 | h64
  · rw [if_pos h64]
    rw [write_variable_int_loop]
    simp only [and_3F, Nat.shiftRight_zero]
    have hm : v % 64 = v := Nat.mod_eq_of_lt h64
    have hn : v - v % 64 = 0 := by omega
    simp only [hm, hn, bne_self_eq_false, Bool.false_eq_true, if_false, beq_self_eq_true, if_true]
    have hc : (v &&& 0x40 == 0x40) = false := by
      have h := cont_mod64 v
      rwa [hm] at h
    simp [hc]
  · rw [if_neg (by omega)]
    rw [write_variable_int_loop]
    simp only [and_3F, Nat.shiftRight_zero]
    have hn : (v - v % 64 != 0) = true := by
      simp only [bne_iff_ne, ne_eq]
      omega
    simp only [hn, if_true, or64_mod]
    have hv1 : v - v % 64 - 0x40 = (v / 64 - 1) * 64 := by omega
    rw [hv1]
    rcases Nat.lt_or_ge v 128 with h128 | h128
    · rw [if_pos (by rw [beq_iff_eq]; omega)]
      rw [if_pos (cont_plus64 v)]
      rw [if_pos (by omega)]
      have h1 : v / 64 - 1 = 0 := by omega
      simp [h1]
    · rw [if_neg (by rw [beq_iff_eq]; omega)]
      rw [write_variable_int_loop]
      simp only [and_FC0, shiftRight6]
      have ha : (v / 64 - 1) * 64 / 64 % 64 * 64 = (v / 64 - 1) % 64 * 64 := by omega
      rw [ha]
      have hb : (v / 64 - 1) % 64 * 64 / 64 = (v / 64 - 1) % 64 := by omega
      rw [hb]
      rcases Nat.lt_or_ge v 4160 with h4160 | h4160
      · -- two bytes, no third level
        rw [if_pos h4160]
        have hq1 : v / 64 - 1 < 64 := by omega
        have hm2 : (v / 64 - 1) % 64 = v / 64 - 1 := Nat.mod_eq_of_lt hq1
        have hn2 : (v / 64 - 1) * 64 - (v / 64 - 1) % 64 * 64 = 0 := by omega
        simp only [hn2, bne_self_eq_false, Bool.false_eq_true, if_false, beq_self_eq_true,
          if_true]
        have hc : ((v / 64 - 1) % 64 &&& 0x40 == 0x40) = false := cont_mod64 (v / 64 - 1)
        rw [hc]
        simp [hm2]
      · rw [if_neg (show ¬ v < 4160 by omega)]
        have hq1 : 64 ≤ v / 64 - 1 := by omega
        have hn2 : ((v / 64 - 1) * 64 - (v / 64 - 1) % 64 * 64 != 0) = true := by
          simp only [bne_iff_ne, ne_eq]
          omega
        simp only [hn2, if_true, or64_mod]
        have hv2 : (v / 64 - 1) * 64 - (v / 64 - 1) % 64 * 64 - 0x1000 =
            ((v / 64 - 1) / 64 - 1) * 4096 := by omega
        rw [hv2]
        rcases Nat.lt_or_ge v 8256 with h8256 | h8256
        · -- third byte is the extra 0x00
          rw [if_pos (show ((((v / 64 - 1) / 64 - 1) * 4096 : Nat) == 0) = true by
            rw [beq_iff_eq]; omega)]
          rw [if_pos (cont_plus64 (v / 64 - 1))]
          have h1 : (v / 64 - 1) / 64 - 1 = 0 := by omega
          simp [h1]
        · rw [if_neg (show ¬ ((((v / 64 - 1) / 64 - 1) * 4096 : Nat) == 0) = true by
            rw [beq_iff_eq]; omega)]
          rw [write_variable_int_loop]
          simp only [and_3F000, shiftRight12]
          have hq2 : (v / 64 - 1) / 64 - 1 < 64 := by omega
          have ha3 : ((v / 64 - 1) / 64 - 1) * 4096 / 4096 % 64 * 4096 =
              ((v / 64 - 1) / 64 - 1) * 4096 := by omega
          rw [ha3]
          have hn3 : ((v / 64 - 1) / 64 - 1) * 4096 - ((v / 64 - 1) / 64 - 1) * 4096 = 0 :=
            by omega
          simp only [hn3, bne_self_eq_false, Bool.false_eq_true, if_false, beq_self_eq_true,
            if_true]
          have hm3 : ((v / 64 - 1) / 64 - 1) * 4096 / 4096 = (v / 64 - 1) / 64 - 1 := by omega
          rw [hm3]
          have hcc : ((v / 64 - 1) / 64 - 1 &&& 0x40 == 0x40) = false := by
            have h := cont_mod64 ((v / 64 - 1) / 64 - 1)
            rwa [Nat.mod_eq_of_lt hq2] at h
          simp [hcc]

/-- Reading back a written variable int, in front of any remaining
stream, recovers the value and leaves the rest untouched. -/
theorem read_write_variable_int (v : Nat) (hv : v ≤ 0x04103F) (rest : List Nat) :
    read_variable_int (write_variable_int_bytes v ++ rest) = .ok (v, rest) := by
  rw [write_variable_int_bytes_eq v hv]
  rcases Nat.lt_or_ge v 64 with h64 | h64
  · rw [if_pos h64]
    show read_variable_int (v :: rest) = .ok (v, rest)
    simp only [read_variable_int, read_data_byte, data_byte_lt128 v (by omega),
      Bool.false_eq_true, if_false, ncont_lt64 v h64, if_true, Nat.shiftLeft_zero, Nat.zero_add]
  · rw [if_neg (by omega)]
    rcases Nat.lt_or_ge v 4160 with h4160 | h4160
    · rw [if_pos h4160]
      show read_variable_int ((v % 64 + 64) :: (v / 64 - 1) :: rest) = .ok (v, rest)
      simp only [read_variable_int, read_data_byte, data_byte_lt128 (v % 64 + 64) (by omega),
        Bool.false_eq_true, if_false, cont_ge64 (v % 64 + 64) (by omega) (by omega),
        data_byte_lt128 (v / 64 - 1) (by omega), ncont_lt64 (v / 64 - 1) (by omega), if_true,
        Nat.shiftLeft_zero, Nat.zero_add, shiftLeft6]
      have h : v % 64 + 64 + (v / 64 - 1) * 64 = v := by omega
      rw [h]
    · rw [if_neg (by omega)]
      show read_variable_int
          ((v % 64 + 64) :: ((v / 64 - 1) % 64 + 64) :: ((v / 64 - 1) / 64 - 1) :: rest) =
        .ok (v, rest)
      have hb2 : (v / 64 - 1) / 64 - 1 < 64 := by omega
      simp only [read_variable_int, read_data_byte, data_byte_lt128 (v % 64 + 64) (by omega),
        Bool.false_eq_true, if_false, cont_ge64 (v % 64 + 64) (by omega) (by omega),
        data_byte_lt128 ((v / 64 - 1) % 64 + 64) (by omega),
        cont_ge64 ((v / 64 - 1) % 64 + 64) (by omega) (by omega),
        data_byte_lt128 ((v / 64 - 1) / 64 - 1) (by omega),
        ncont_lt64 ((v / 64 - 1) / 64 - 1) hb2, if_true,
        Nat.shiftLeft_zero, Nat.zero_add, shiftLeft6, shiftLeft12]
      have h : v % 64 + 64 + ((v / 64 - 1) % 64 + 64) * 64 + ((v / 64 - 1) / 64 - 1) * 4096 = v :=
        by omega
      rw [h]

/-! ## Extended variable ints -/

theorem read_data_byte_length {s rest : List Nat} {b : Nat}
    (h : read_data_byte s = .ok (b, rest)) : rest.length < s.length := by
  cases s with
  | nil => simp [read_data_byte] at h
  | cons x xs =>
    simp only [read_data_byte] at h
    by_cases hx : x &&& 0x80 == 0x80
    · simp [hx] at h
    · simp [hx] at h
      simp [← h.2]

theorem read_variable_int_length {s rest : List Nat} {v : Nat}
    (h : read_variable_int s = .ok (v, rest)) : rest.length < s.length := by
  unfold read_variable_int at h
  cases h0 : read_data_byte s with
  | error e => rw [h0] at h; simp at h
  | ok p0 =>
    obtain ⟨b0, s0⟩ := p0
    rw [h0] at h
    have hs0 := read_data_byte_length h0
    dsimp only at h
    split at h
    · simp only [Except.ok.injEq, Prod.mk.injEq] at h
      obtain ⟨-, hrest⟩ := h
      subst hrest
      exact hs0
    · cases h1 : read_data_byte s0 with
      | error e => rw [h1] at h; simp at h
      | ok p1 =>
        obtain ⟨b1, s1⟩ := p1
        rw [h1] at h
        have hs1 := read_data_byte_length h1
        dsimp only at h
        split at h
        · simp only [Except.ok.injEq, Prod.mk.injEq] at h
          obtain ⟨-, hrest⟩ := h
          subst hrest
          omega
        · cases h2 : read_data_byte s1 with
          | error e => rw [h2] at h; simp at h
          | ok p2 =>
            obtain ⟨b2, s2⟩ := p2
            rw [h2] at h
            have hs2 := read_data_byte_length h2
            dsimp only at h
            split at h
            · simp only [Except.ok.injEq, Prod.mk.injEq] at h
              obtain ⟨-, hrest⟩ := h
              subst hrest
              omega
            · simp at h

theorem read_extended_loop_step (v : Nat) (h1 : 0 < v) (hv : v ≤ 0x04103F) (acc : Nat)
    (rest : List Nat) :
    read_extended_variable_int_loop acc (write_variable_int_bytes v ++ rest) =
      read_extended_variable_int_loop (acc + v) rest := by
  have hr := read_write_variable_int v hv rest
  have hhead : ∃ b s2, write_variable_int_bytes v ++ rest = b :: s2 ∧ 0 < b ∧ b < 128 := by
    rw [write_variable_int_bytes_eq v hv]
    rcases Nat.lt_or_ge v 64 with h64 | h64
    · rw [if_pos h64]
      exact ⟨v, rest, rfl, h1, by omega⟩
    · rw [if_neg (by omega)]
      rcases Nat.lt_or_ge v 4160 with h4160 | h4160
      · rw [if_pos h4160]
        exact ⟨v % 64 + 64, _, rfl, by omega, by omega⟩
      · rw [if_neg (by omega)]
        exact ⟨v % 64 + 64, _, rfl, by omega, by omega⟩
  obtain ⟨b, s2, he, hb0, hb128⟩ := hhead
  rw [read_extended_variable_int_loop, he]
  have hpeek : peek_data_byte (b :: s2) = .ok b := by
    simp [peek_data_byte, data_byte_lt128 b hb128]
  rw [hpeek]
  dsimp only
  rw [if_neg (by simp [beq_iff_eq]; omega)]
  rw [← he]
  split
  · rename_i e heq
    rw [hr] at heq
    simp at heq
  · rename_i v2 s3 heq
    rw [hr] at heq
    simp only [Except.ok.injEq, Prod.mk.injEq] at heq
    rw [heq.1, heq.2]

theorem read_extended_loop_end (acc : Nat) :
    read_extended_variable_int_loop acc [] = .ok (acc, []) := by
  rw [read_extended_variable_int_loop]
  simp [peek_data_byte]

theorem write_extended_ok (v : Nat) : ∃ bs, write_extended_variable_int v = .ok bs := by
  induction v using Nat.strong_induction_on with
  | _ v ih =>
    rw [write_extended_variable_int]
    by_cases h : 0 < v
    · rw [if_pos h]
      have hw : write_variable_int (min v 0x04103F) =
          .ok (write_variable_int_bytes (min v 0x04103F)) := by
        rw [write_variable_int, if_neg (by omega)]
      simp only [hw]
      obtain ⟨bs2, hbs2⟩ := ih (v - min v 0x04103F) (by omega)
      rw [hbs2]
      exact ⟨_, rfl⟩
    · rw [if_neg h]
      exact ⟨[], rfl⟩

theorem read_extended_loop_write (v : Nat) : ∀ bs, write_extended_variable_int v = .ok bs →
    ∀ acc, read_extended_variable_int_loop acc bs = .ok (acc + v, []) := by
  induction v using Nat.strong_induction_on with
  | _ v ih =>
    intro bs hbs acc
    rw [write_extended_variable_int] at hbs
    by_cases h : 0 < v
    · rw [if_pos h] at hbs
      have hw : write_variable_int (min v 0x04103F) =
          .ok (write_variable_int_bytes (min v 0x04103F)) := by
        rw [write_variable_int, if_neg (by omega)]
      simp only [hw] at hbs
      obtain ⟨bs2, hbs2⟩ := write_extended_ok (v - min v 0x04103F)
      rw [hbs2] at hbs
      simp only [Except.ok.injEq] at hbs
      subst hbs
      rw [read_extended_loop_step (min v 0x04103F) (by omega) (by omega) acc bs2]
      rw [ih (v - min v 0x04103F) (by omega) bs2 hbs2 (acc + min v 0x04103F)]
      congr 1
      ext1
      · omega
      · rfl
    · rw [if_neg h] at hbs
      simp only [Except.ok.injEq] at hbs
      subst hbs
      rw [read_extended_loop_end]
      have h0 : v = 0 := by omega
      simp [h0]

/-! ## ADPCM evaluation lemmas -/

theorem python_round_intCast (z : Int) : python_round (z : ℚ) = z := by
  unfold python_round
  rw [Int.floor_intCast]
  norm_num

theorem clamp16_intCast (z : Int) (h1 : -32768 ≤ z) (h2 : z ≤ 32767) :
    clamp16 (z : ℚ) = z := by
  unfold clamp16
  rw [if_neg (by exact_mod_cast not_lt.mpr (by exact_mod_cast h2)),
    if_neg (by exact_mod_cast not_lt.mpr (by exact_mod_cast h1))]
  exact python_round_intCast z

/-- With parameter byte 0, shift and index are 0, the prediction
coefficients are `K0[0] = K1[0] = 0`, and the decoded sample is the
signed nibble shifted by 12 bits, independent of the predictor state. -/
theorem decode_sample_sp0 (st : AdpcmState) (su : Nat) :
    decode_sample st 0 su =
      .ok (SIGNED_NIBBLES.getD su 0 * 4096,
           ⟨SIGNED_NIBBLES.getD su 0 * 4096, st.prev1⟩) := by
  obtain ⟨n, hn⟩ : ∃ n, SIGNED_NIBBLES.getD su 0 = n := ⟨_, rfl⟩
  have hb : -8 ≤ n ∧ n ≤ 7 := by
    rw [← hn]
    rcases Nat.lt_or_ge su 16 with h | h
    · interval_cases su <;> simp [SIGNED_NIBBLES]
    · rw [List.getD_eq_default _ _ (by simp [SIGNED_NIBBLES]; omega)]
      norm_num
  unfold decode_sample
  rw [hn]
  norm_num [SHIFT_LIMIT, INDEX_LIMIT, K0, K1]
  rw [show ((n : ℚ) * 4096 = ((n * 4096 : Int) : ℚ)) by push_cast; ring]
  rw [clamp16_intCast (n * 4096) (by omega) (by omega)]

theorem nibble_of_zero (nibble : Nat) :
    (if (nibble != 0) = true then (0 : Nat) >>> 4 else (0 : Nat) &&& 0x0F) = 0 := by
  split <;> rfl

theorem subframe_go_zeros (samples : List Nat) (subframe_index nibble : Nat) :
    ∀ (k i : Nat) (st : AdpcmState),
      (∀ m, m < k → samples.getD ((i + m) * 4 + subframe_index) 0 = 0) →
      ∃ stf, decode_subframe_go 0 samples subframe_index nibble i k st =
        .ok (List.replicate k 0, stf)
  | 0, i, st, _ => ⟨st, rfl⟩
  | k + 1, i, st, h => by
    rw [decode_subframe_go]
    have h0 : samples.getD (i * 4 + subframe_index) 0 = 0 := by
      have hm0 := h 0 (by omega)
      simpa using hm0
    rw [h0, nibble_of_zero, decode_sample_sp0]
    have hz : (SIGNED_NIBBLES.getD 0 0 : Int) * 4096 = 0 := by norm_num [SIGNED_NIBBLES]
    rw [hz]
    dsimp only
    have hrest : ∀ m, m < k → samples.getD ((i + 1 + m) * 4 + subframe_index) 0 = 0 := by
      intro m hm
      have hmk := h (m + 1) (by omega)
      rw [← hmk]
      congr 2
      omega
    obtain ⟨stf, hf⟩ := subframe_go_zeros samples subframe_index nibble k (i + 1)
      ⟨0, st.prev1⟩ hrest
    rw [hf]
    exact ⟨stf, by simp [List.replicate_succ]⟩

theorem replicate_getD_zero : ∀ (n j : Nat), (List.replicate n (0 : Nat)).getD j 0 = 0
  | 0, _ => by simp
  | _+1, 0 => by simp
  | n+1, j+1 => by
    rw [List.replicate_succ, List.getD_cons_succ]
    exact replicate_getD_zero n j

theorem adpcm_test_samples_getD (j : Nat) (hj : 1 ≤ j) : adpcm_test_samples.getD j 0 = 0 := by
  cases j with
  | zero => omega
  | succ j =>
    rw [adpcm_test_samples, List.getD_cons_succ]
    exact replicate_getD_zero 111 j

/-- With `nibble = 0` (the pass the source runs first), byte `0x21`
decodes to its LOW nibble `0x1`, i.e. `1 <<< 12 = 4096`. -/
theorem subframe0_low (st : AdpcmState) :
    ∃ stf, decode_subframe st 0 adpcm_test_samples 0 0 =
      .ok (4096 :: List.replicate 27 0, stf) := by
  unfold decode_subframe
  rw [show (28 : Nat) = 27 + 1 from rfl, decode_subframe_go]
  have h1 : adpcm_test_samples.getD (0 * 4 + 0) 0 = 0x21 := by simp [adpcm_test_samples]
  rw [h1]
  have h2 : (if ((0 : Nat) != 0) = true then (0x21 : Nat) >>> 4 else (0x21 : Nat) &&& 0x0F) = 1 :=
    by decide
  rw [h2, decode_sample_sp0]
  have h3 : (SIGNED_NIBBLES.getD 1 0 : Int) * 4096 = 4096 := by norm_num [SIGNED_NIBBLES]
  rw [h3]
  dsimp only
  obtain ⟨stf, hf⟩ := subframe_go_zeros adpcm_test_samples 0 0 27 1 ⟨4096, st.prev1⟩
    (fun m hm => adpcm_test_samples_getD _ (by omega))
  rw [hf]
  exact ⟨stf, rfl⟩

/-- With `nibble = 1` (the second pass), byte `0x21` decodes to its
HIGH nibble `0x2`, i.e. `2 <<< 12 = 8192`. -/
theorem subframe0_high (st : AdpcmState) :
    ∃ stf, decode_subframe st 0 adpcm_test_samples 0 1 =
      .ok (8192 :: List.replicate 27 0, stf) := by
  unfold decode_subframe
  rw [show (28 : Nat) = 27 + 1 from rfl, decode_subframe_go]
  have h1 : adpcm_test_samples.getD (0 * 4 + 0) 0 = 0x21 := by simp [adpcm_test_samples]
  rw [h1]
  have h2 : (if ((1 : Nat) != 0) = true then (0x21 : Nat) >>> 4 else (0x21 : Nat) &&& 0x0F) = 2 :=
    by decide
  rw [h2, decode_sample_sp0]
  have h3 : (SIGNED_NIBBLES.getD 2 0 : Int) * 4096 = 8192 := by norm_num [SIGNED_NIBBLES]
  rw [h3]
  dsimp only
  obtain ⟨stf, hf⟩ := subframe_go_zeros adpcm_test_samples 0 1 27 1 ⟨8192, st.prev1⟩
    (fun m hm => adpcm_test_samples_getD _ (by omega))
  rw [hf]
  exact ⟨stf, rfl⟩

theorem subframe_other (st : AdpcmState) (i j : Nat) (hi : 1 ≤ i) :
    ∃ stf, decode_subframe st 0 adpcm_test_samples i j = .ok (List.replicate 28 0, stf) := by
  unfold decode_subframe
  exact subframe_go_zeros adpcm_test_samples i j 28 0 st
    (fun m hm => adpcm_test_samples_getD _ (by omega))

set_option maxRecDepth 4096 in
theorem decode_frame_test_eval :
    ∃ stf, decode_frame ⟨0, 0⟩ (List.replicate 16 0) adpcm_test_samples =
      .ok ((4096 :: List.replicate 27 0) ++ (8192 :: List.replicate 27 0) ++
        List.replicate 168 0, stf) := by
  have hp : ∀ j, (List.replicate 16 (0 : Nat)).getD j 0 = 0 := fun j => replicate_getD_zero 16 j
  unfold decode_frame subframe_nibble_order
  rw [decode_frame_go, hp]
  obtain ⟨s1, h1⟩ := subframe0_low (⟨0, 0⟩ : AdpcmState)
  rw [h1]; dsimp only
  rw [decode_frame_go, hp]
  obtain ⟨s2, h2⟩ := subframe0_high s1
  rw [h2]; dsimp only
  rw [decode_frame_go, hp]
  obtain ⟨s3, h3⟩ := subframe_other s2 1 0 (by omega)
  rw [h3]; dsimp only
  rw [decode_frame_go, hp]
  obtain ⟨s4, h4⟩ := subframe_other s3 1 1 (by omega)
  rw [h4]; dsimp only
  rw [decode_frame_go, hp]
  obtain ⟨s5, h5⟩ := subframe_other s4 2 0 (by omega)
  rw [h5]; dsimp only
  rw [decode_frame_go, hp]
  obtain ⟨s6, h6⟩ := subframe_other s5 2 1 (by omega)
  rw [h6]; dsimp only
  rw [decode_frame_go, hp]
  obtain ⟨s7, h7⟩ := subframe_other s6 3 0 (by omega)
  rw [h7]; dsimp only
  rw [decode_frame_go, hp]
  obtain ⟨s8, h8⟩ := subframe_other s7 3 1 (by omega)
  rw [h8]; dsimp only
  rw [decode_frame_go]
  refine ⟨s8, ?_⟩
  simp [show (168 : Nat) = 28 + (28 + (28 + (28 + (28 + 28)))) from rfl, List.replicate_add]

/-! ## Scramble round trip -/

theorem scramble_descramble_aux (pattern : Nat → Nat) (hp : ∀ i, pattern i < 0x10000) :
    ∀ (b : List Nat) (k : Nat), (∀ x ∈ b, x < 256) → b.length % 2 = 0 →
      ∃ sb, scramble pattern b k = .ok (sb, (k + b.length / 2) % 0x100) ∧
        descramble pattern sb k = .ok (b, (k + b.length / 2) % 0x100)
  | [], k, _, _ => ⟨[], by simp [scramble], by simp [descramble]⟩
  | [x], _, _, hlen => by simp at hlen
  | hi :: lo :: rest, k, hb, hlen => by
    have hhi : hi < 256 := hb hi (by simp)
    have hlo : lo < 256 := hb lo (by simp)
    obtain ⟨sb, hs, hd⟩ := scramble_descramble_aux pattern hp rest (k + 1)
      (fun x hx => hb x (by simp [hx]))
      (by simp only [List.length_cons] at hlen; omega)
    have hidx : (k + 1 + rest.length / 2) % 0x100 = (k + (hi :: lo :: rest).length / 2) % 0x100 :=
      by
      simp only [List.length_cons]
      omega
    rw [hidx] at hs hd
    have h16 : (2 : Nat) ^ 16 = 0x10000 := by norm_num
    have hplain : hi * 256 + lo < 0x10000 := by omega
    have hscr : (hi * 256 + lo) ^^^ pattern (k % 0x100) < 0x10000 := by
      have h1 : hi * 256 + lo < 2 ^ 16 := by rw [h16]; omega
      have h2 : pattern (k % 0x100) < 2 ^ 16 := by rw [h16]; exact hp (k % 0x100)
      have h3 := @Nat.xor_lt_two_pow (hi * 256 + lo) (pattern (k % 0x100)) 16 h1 h2
      rw [h16] at h3
      exact h3
    refine ⟨((hi * 256 + lo) ^^^ pattern (k % 0x100)) / 256 ::
      ((hi * 256 + lo) ^^^ pattern (k % 0x100)) % 256 :: sb, ?_, ?_⟩
    · rw [scramble]
      rw [if_pos hscr, hs]
    · rw [descramble]
      have hrecomb : ((hi * 256 + lo) ^^^ pattern (k % 0x100)) / 256 * 256 +
          ((hi * 256 + lo) ^^^ pattern (k % 0x100)) % 256 =
          (hi * 256 + lo) ^^^ pattern (k % 0x100) := by omega
      rw [hrecomb, Nat.xor_cancel_right, if_pos hplain, hd]
      have hdiv : (hi * 256 + lo) / 256 = hi := by omega
      have hmod : (hi * 256 + lo) % 256 = lo := by omega
      rw [hdiv, hmod]

/-! ## Claim theorems -/

/-- C1 (counterexample): the two-byte well-formed input `7F 3F` reads
as `0x103F = 0x7F + 0x3F·64`, not as `Σᵢ (bᵢ & 0x3F)·64ⁱ = 0x3F +
0x3F·64 = 0xFFF`: `read_variable_int` accumulates the full byte,
continuation bit included (the specification's own edge-value table
`(0x00103F, "7F 3F")` agrees with the code). -/
theorem C1_counterexample :
    read_variable_int [0x7F, 0x3F] = .ok (0x103F, []) ∧
    (0x103F : Nat) ≠ 0x3F + 0x3F * 64 := by
  constructor
  · decide
  · decide

/-- C1 (amended): for every well-formed OKD variable int (at most three
bytes, each with bit 7 clear, bit 6 meaning "another byte follows", the
last byte with bit 6 clear), `read_variable_int` returns
`Σᵢ bᵢ · 64ⁱ` — the full bytes, continuation bits included — and
consumes exactly those bytes. -/
theorem C1_wellformed_varint_value (bs rest : List Nat) (h : is_wellformed_varint bs) :
    read_variable_int (bs ++ rest) = .ok (varint_value bs, rest) := by
  cases bs with
  | nil => exact absurd h (by simp [is_wellformed_varint])
  | cons b0 t0 =>
    cases t0 with
    | nil =>
      obtain ⟨h80, h40⟩ := h
      have e80 : (b0 &&& 0x80 == 0x80) = false := beq_eq_false_iff_ne.mpr h80
      have e40 : (b0 &&& 0x40 != 0x40) = true := bne_iff_ne.mpr h40
      simp only [List.cons_append, List.nil_append, read_variable_int, read_data_byte, e80,
        Bool.false_eq_true, if_false, e40, if_true, Nat.shiftLeft_zero, Nat.zero_add,
        varint_value, Except.ok.injEq, Prod.mk.injEq]
      exact ⟨by omega, trivial⟩
    | cons b1 t1 =>
      cases t1 with
      | nil =>
        obtain ⟨h80, h40, g80, g40⟩ := h
        have e80 : (b0 &&& 0x80 == 0x80) = false := beq_eq_false_iff_ne.mpr h80
        have e40 : (b0 &&& 0x40 != 0x40) = false := by simp [bne, h40]
        have f80 : (b1 &&& 0x80 == 0x80) = false := beq_eq_false_iff_ne.mpr g80
        have f40 : (b1 &&& 0x40 != 0x40) = true := bne_iff_ne.mpr g40
        simp only [List.cons_append, List.nil_append, read_variable_int, read_data_byte, e80,
          f80, Bool.false_eq_true, if_false, e40, f40, if_true, Nat.shiftLeft_zero,
          Nat.zero_add, shiftLeft6, varint_value, Except.ok.injEq, Prod.mk.injEq]
        exact ⟨by omega, trivial⟩
      | cons b2 t2 =>
        cases t2 with
        | nil =>
          obtain ⟨h80, h40, g80, g40, k80, k40⟩ := h
          have e80 : (b0 &&& 0x80 == 0x80) = false := beq_eq_false_iff_ne.mpr h80
          have e40 : (b0 &&& 0x40 != 0x40) = false := by simp [bne, h40]
          have f80 : (b1 &&& 0x80 == 0x80) = false := beq_eq_false_iff_ne.mpr g80
          have f40 : (b1 &&& 0x40 != 0x40) = false := by simp [bne, g40]
          have k80f : (b2 &&& 0x80 == 0x80) = false := beq_eq_false_iff_ne.mpr k80
          have k40t : (b2 &&& 0x40 != 0x40) = true := bne_iff_ne.mpr k40
          simp only [List.cons_append, List.nil_append, read_variable_int, read_data_byte,
            e80, f80, k80f, Bool.false_eq_true, if_false, e40, f40, k40t, if_true,
            Nat.shiftLeft_zero, Nat.zero_add, shiftLeft6, shiftLeft12, varint_value,
            Except.ok.injEq, Prod.mk.injEq]
          exact ⟨by omega, trivial⟩
        | cons b3 t3 => exact absurd h (by simp [is_wellformed_varint])

/-- Witness for C1 at the bytes `7F 3F`: well-formed, and read as
`varint_value [0x7F, 0x3F] = 0x103F`. -/
theorem C1_wellformed_varint_value_witness :
    is_wellformed_varint [0x7F, 0x3F] ∧
    read_variable_int ([0x7F, 0x3F] ++ []) = .ok (varint_value [0x7F, 0x3F], []) :=
  ⟨by simp only [is_wellformed_varint]; decide,
   C1_wellformed_varint_value [0x7F, 0x3F] [] (by simp only [is_wellformed_varint]; decide)⟩

/-- C2: the variable-int round trip is the identity: for every value
`v ≤ 0x04103F`, reading back the bytes written by `write_variable_int`
yields `v` with the stream exhausted, and for every `v < 2³²`, reading
back the bytes written by `write_extended_variable_int` with
`read_extended_variable_int` yields `v`. -/
theorem C2_varint_roundtrip :
    (∀ v, v ≤ 0x04103F → ∃ bs, write_variable_int v = .ok bs ∧
      read_variable_int bs = .ok (v, [])) ∧
    (∀ v, v < 2 ^ 32 → ∃ bs, write_extended_variable_int v = .ok bs ∧
      read_extended_variable_int bs = .ok (v, [])) := by
  constructor
  · intro v hv
    refine ⟨write_variable_int_bytes v, ?_, ?_⟩
    · rw [write_variable_int, if_neg (by omega)]
    · have h := read_write_variable_int v hv []
      rwa [List.append_nil] at h
  · intro v _
    obtain ⟨bs, hbs⟩ := write_extended_ok v
    refine ⟨bs, hbs, ?_⟩
    have h := read_extended_loop_write v bs hbs 0
    simpa [read_extended_variable_int] using h

/-- Witness for C2 at `v = 0x103F` (plain) and `v = 0x12345678`
(extended). -/
theorem C2_varint_roundtrip_witness :
    (∃ bs, write_variable_int 0x103F = .ok bs ∧
      read_variable_int bs = .ok (0x103F, [])) ∧
    (∃ bs, write_extended_variable_int 0x12345678 = .ok bs ∧
      read_extended_variable_int bs = .ok (0x12345678, [])) :=
  ⟨C2_varint_roundtrip.1 0x103F (by norm_num),
   C2_varint_roundtrip.2 0x12345678 (by norm_num)⟩

/-- C3 (code bug): decoding the frame whose parameters are all zero and
whose sample bytes are `21 00 ... 00` produces, as the first sample of
subframe 0, `4096 = SIGNED_NIBBLES[0x21 & 0x0F] << 12` — the decode of
the LOW nibble — and only as sample 28 (the second pass) `8192 =
SIGNED_NIBBLES[0x21 >> 4] << 12`, the decode of the HIGH nibble.  The
docstring of `__decode_subframe` ("nibble (0: High, 1: Low)") and the
claim say the high nibble is decoded first; the conditional
`su >> 4 if nibble != 0 else su & 0x0F` decodes the low nibble on the
first (`j = 0`) pass. -/
theorem C3_nibble_order_low_first :
    (∃ stf, decode_frame ⟨0, 0⟩ (List.replicate 16 0) adpcm_test_samples =
      .ok ((4096 :: List.replicate 27 0) ++ (8192 :: List.replicate 27 0) ++
        List.replicate 168 0, stf)) ∧
    (4096 : Int) = SIGNED_NIBBLES.getD (0x21 &&& 0x0F) 0 * 2 ^ 12 ∧
    (8192 : Int) = SIGNED_NIBBLES.getD (0x21 >>> 4) 0 * 2 ^ 12 :=
  ⟨decode_frame_test_eval, by decide, by decide⟩

/-- C4: a stored note-on event (`status & 0xF0 == 0x90`, data `[X, Y]`)
with duration `d`, reached at absolute time `t₀ + delta`, contributes a
relocated note-on `(status, [X, Y])` at that time and a relocated
note-off `(0x80 | channel, [X, 0x40])` at `t + d·4` on a non-lossless
track (`track_status & 0x80 == 0`) and at `t + d` on a lossless one. -/
theorem C4_note_on_duration_shift (entry : PTrackInfoEntry) (grouping : Bool) (t0 : Nat)
    (event : PTrackEvent) (rest : List PTrackEvent) (X Y d : Nat)
    (h90 : event.status_byte &&& 0xF0 = 0x90) (hdata : event.data_bytes = [X, Y])
    (hdur : event.duration = some d) :
    absolute_time_track_go entry entry.is_lossless_track t0 grouping (event :: rest) =
      relocate_event entry event.status_byte [X, Y] (t0 + event.delta_time) grouping ++
      (relocate_event entry (0x80 ||| (event.status_byte &&& 0x0F)) [X, 0x40]
        (t0 + event.delta_time +
          (if entry.is_lossless_track then d else d * 4)) grouping ++
      absolute_time_track_go entry entry.is_lossless_track (t0 + event.delta_time)
        (event.status_byte == 0xFD) rest) := by
  rw [absolute_time_track_go]
  rw [← List.append_assoc]
  congr 1
  unfold absolute_time_track_event
  simp only [PTrackEvent.status_byte_type, PTrackEvent.channel, h90, hdata, hdur]
  norm_num
  cases hls : entry.is_lossless_track with
  | true => simp
  | false =>
    simp only [Bool.not_false, if_true, if_false]
    norm_num [Nat.shiftLeft_eq]

/-- Witness for C4: stored `90 3C 64` with duration 100 on the
non-lossless `sample_info_entry` (note-off time `5 + 100·4`). -/
theorem C4_note_on_duration_shift_witness :
    absolute_time_track_go sample_info_entry sample_info_entry.is_lossless_track 0 false
        [⟨0x90, [0x3C, 0x64], 5, some 100⟩] =
      relocate_event sample_info_entry 0x90 [0x3C, 0x64] (0 + 5) false ++
      (relocate_event sample_info_entry (0x80 ||| (0x90 &&& 0x0F)) [0x3C, 0x40]
        (0 + 5 + (if sample_info_entry.is_lossless_track then 100 else 100 * 4)) false ++
      absolute_time_track_go sample_info_entry sample_info_entry.is_lossless_track (0 + 5)
        (0x90 == 0xFD) []) :=
  C4_note_on_duration_shift sample_info_entry false 0 ⟨0x90, [0x3C, 0x64], 5, some 100⟩ []
    0x3C 0x64 100 (by decide) rfl rfl

/-- C5: every event emitted by the P-track fan-out
`__relocate_event` has a destination track index in `[0, 64)`: system
events go to `port · 16` for ports `0..3`, channel-voice events to
`port · 16 + grouped_channel` with `grouped_channel < 16`. -/
theorem C5_relocate_track_bound (entry : PTrackInfoEntry) (sb : Nat) (db : List Nat)
    (t : Nat) (g : Bool) (e : PTrackAbsoluteTimeEvent)
    (he : e ∈ relocate_event entry sb db t g) :
    e.track < 64 := by
  simp only [relocate_event, PORTS, CHANNELS_PER_PORT] at he
  split at he <;> split at he <;>
  first
  | (simp only [List.mem_filterMap, List.mem_range, Option.ite_none_right_eq_some,
       Option.some.injEq] at he
     obtain ⟨port, hport, -, hsome⟩ := he
     subst hsome
     dsimp only
     omega)
  | (simp only [List.mem_flatMap, List.mem_range] at he
     obtain ⟨port, hport, hin⟩ := he
     split at hin
     · simp only [List.mem_filterMap, List.mem_range, Option.ite_none_right_eq_some,
         Option.some.injEq] at hin
       obtain ⟨gc, hgc, -, hsome⟩ := hin
       subst hsome
       dsimp only
       omega
     · simp at hin)

/-- Witness for C5: the SysEx event relocated to port 0 / track 0 by
`sample_info_entry` has track index below 64. -/
theorem C5_relocate_track_bound_witness :
    ((⟨0xF0, [1], 0, 0, 5⟩ : PTrackAbsoluteTimeEvent) ∈
      relocate_event sample_info_entry 0xF0 [1] 5 false) ∧
    (⟨0xF0, [1], 0, 0, 5⟩ : PTrackAbsoluteTimeEvent).track < 64 :=
  ⟨by decide,
   C5_relocate_track_bound sample_info_entry 0xF0 [1] 5 false ⟨0xF0, [1], 0, 0, 5⟩
     (by decide)⟩

/-- C6: descrambling inverts scrambling: for every 16-bit pattern table,
index `k` and even-length byte buffer `b`, descrambling the scrambled
bytes at the same index recovers `b`, and both calls return the same
final index `(k + |b|/2) % 256`. -/
theorem C6_scramble_roundtrip (pattern : Nat → Nat) (hp : ∀ i, pattern i < 0x10000)
    (b : List Nat) (k : Nat) (hb : ∀ x ∈ b, x < 256) (hlen : b.length % 2 = 0) :
    ∃ sb, scramble pattern b k = .ok (sb, (k + b.length / 2) % 0x100) ∧
      descramble pattern sb k = .ok (b, (k + b.length / 2) % 0x100) :=
  scramble_descramble_aux pattern hp b k hb hlen

/-- Witness for C6 at a constant 16-bit table, `b = [1, 2, 252, 253]`,
`k = 7`. -/
theorem C6_scramble_roundtrip_witness :
    ∃ sb, scramble (fun _ => 0x1234) [1, 2, 252, 253] 7 =
        .ok (sb, (7 + ([1, 2, 252, 253] : List Nat).length / 2) % 0x100) ∧
      descramble (fun _ => 0x1234) sb 7 =
        .ok ([1, 2, 252, 253], (7 + ([1, 2, 252, 253] : List Nat).length / 2) % 0x100) :=
  C6_scramble_roundtrip (fun _ => 0x1234) (fun i => by norm_num) [1, 2, 252, 253] 7
    (by decide) (by decide)

/-- C7: `read_variable_int` fails with `badVarint` exactly when it
successfully reads three consecutive data bytes (bit 7 clear) that all
carry the continuation bit `0x40`; and `write_variable_int` fails with
`badVarint` exactly when the value exceeds `0x04103F`. -/
theorem C7_badvarint_iff :
    (∀ s, read_variable_int s = .error .badVarint ↔
      ∃ b0 b1 b2 rest, s = b0 :: b1 :: b2 :: rest ∧
        (b0 &&& 0x80 ≠ 0x80 ∧ b0 &&& 0x40 = 0x40) ∧
        (b1 &&& 0x80 ≠ 0x80 ∧ b1 &&& 0x40 = 0x40) ∧
        (b2 &&& 0x80 ≠ 0x80 ∧ b2 &&& 0x40 = 0x40)) ∧
    (∀ v, write_variable_int v = .error .badVarint ↔ 0x04103F < v) := by
  constructor
  · intro s
    constructor
    · intro h
      cases s with
      | nil => simp [read_variable_int, read_data_byte] at h
      | cons b0 t0 =>
        by_cases h80 : (b0 &&& 0x80 == 0x80) = true
        · simp [read_variable_int, read_data_byte, h80] at h
        · rw [Bool.not_eq_true] at h80
          by_cases h40 : (b0 &&& 0x40 != 0x40) = true
          · simp [read_variable_int, read_data_byte, h80, h40] at h
          · rw [Bool.not_eq_true] at h40
            cases t0 with
            | nil => simp [read_variable_int, read_data_byte, h80, h40] at h
            | cons b1 t1 =>
              by_cases g80 : (b1 &&& 0x80 == 0x80) = true
              · simp [read_variable_int, read_data_byte, h80, h40, g80] at h
              · rw [Bool.not_eq_true] at g80
                by_cases g40 : (b1 &&& 0x40 != 0x40) = true
                · simp [read_variable_int, read_data_byte, h80, h40, g80, g40] at h
                · rw [Bool.not_eq_true] at g40
                  cases t1 with
                  | nil => simp [read_variable_int, read_data_byte, h80, h40, g80, g40] at h
                  | cons b2 t2 =>
                    by_cases k80 : (b2 &&& 0x80 == 0x80) = true
                    · simp [read_variable_int, read_data_byte, h80, h40, g80, g40, k80] at h
                    · rw [Bool.not_eq_true] at k80
                      by_cases k40 : (b2 &&& 0x40 != 0x40) = true
                      · simp [read_variable_int, read_data_byte, h80, h40, g80, g40, k80,
                          k40] at h
                      · rw [Bool.not_eq_true] at k40
                        refine ⟨b0, b1, b2, t2, rfl, ?_, ?_, ?_⟩
                        · exact ⟨beq_eq_false_iff_ne.mp h80,
                            by simpa using bne_eq_false_iff_eq.mp h40⟩
                        · exact ⟨beq_eq_false_iff_ne.mp g80,
                            by simpa using bne_eq_false_iff_eq.mp g40⟩
                        · exact ⟨beq_eq_false_iff_ne.mp k80,
                            by simpa using bne_eq_false_iff_eq.mp k40⟩
    · rintro ⟨b0, b1, b2, rest, rfl, ⟨h80, h40⟩, ⟨g80, g40⟩, ⟨k80, k40⟩⟩
      have e80 : (b0 &&& 0x80 == 0x80) = false := beq_eq_false_iff_ne.mpr h80
      have e40 : (b0 &&& 0x40 != 0x40) = false := by simp [bne, h40]
      have f80 : (b1 &&& 0x80 == 0x80) = false := beq_eq_false_iff_ne.mpr g80
      have f40 : (b1 &&& 0x40 != 0x40) = false := by simp [bne, g40]
      have i80 : (b2 &&& 0x80 == 0x80) = false := beq_eq_false_iff_ne.mpr k80
      have i40 : (b2 &&& 0x40 != 0x40) = false := by simp [bne, k40]
      simp [read_variable_int, read_data_byte, e80, e40, f80, f40, i80, i40]
  · intro v
    constructor
    · intro h
      by_contra hc
      rw [write_variable_int, if_neg hc] at h
      simp at h
    · intro h
      rw [write_variable_int, if_pos h]

/-- C8 (counterexample): `OkdFile.write` does not leave the header
unchanged — on a file whose header has `length = 999` and
`encryption_mode = 7`, writing without scrambling sets `length` to the
recomputed `40 + 0 + 0 - 8 = 32` and `encryption_mode` to 0. -/
theorem C8_counterexample :
    (OkdFile.write ⟨⟨999, [], 0, 0, 7, []⟩, []⟩ false (fun _ => 0) 0).1.header.length ≠ 999 ∧
    (OkdFile.write ⟨⟨999, [], 0, 0, 7, []⟩, []⟩ false
      (fun _ => 0) 0).1.header.encryption_mode ≠ 7 := by
  constructor
  · decide
  · decide

/-- C8 (amended): `OkdFile.write` leaves the chunk list and every
header field except `length` and `encryption_mode` unchanged; `length`
is set to `40 + |optional data| + |chunks buffer| - 8` and
`encryption_mode` to 1 when scrambling, 0 otherwise. -/
theorem C8_write_header_effect (f : OkdFile) (should_scramble : Bool)
    (pattern : Nat → Nat) (k : Nat) :
    (OkdFile.write f should_scramble pattern k).1.chunks = f.chunks ∧
    (OkdFile.write f should_scramble pattern k).1.header.version = f.header.version ∧
    (OkdFile.write f should_scramble pattern k).1.header.id_karaoke = f.header.id_karaoke ∧
    (OkdFile.write f should_scramble pattern k).1.header.adpcm_offset =
      f.header.adpcm_offset ∧
    (OkdFile.write f should_scramble pattern k).1.header.optional_data =
      f.header.optional_data ∧
    (OkdFile.write f should_scramble pattern k).1.header.length =
      40 + f.header.optional_data.length + ((f.chunks.map chunk_write).flatten).length - 8 ∧
    (OkdFile.write f should_scramble pattern k).1.header.encryption_mode =
      (if should_scramble then 1 else 0) :=
  ⟨rfl, rfl, rfl, rfl, rfl, rfl, rfl⟩

/-- C9: because `[[]] * PTrackChunk.PORTS` aliases the four per-port
sub-lists to one shared list, `__midi_to_absolute_time_tracks` returns
four identical sub-lists on every input: the result is `replicate 4 l`
for a single list `l`. -/
theorem C9_aliased_port_lists (conv : Nat → Nat) (tracks : List MidiTrackData)
    (res : List (List PTrackAbsoluteTimeEvent))
    (h : midi_to_absolute_time_tracks conv tracks = .ok res) :
    ∃ l, res = List.replicate 4 l := by
  unfold midi_to_absolute_time_tracks at h
  dsimp only at h
  cases hm : midi_tracks_loop conv (List.replicate PORTS 0) tracks (fun _ => []) with
  | error e =>
    rw [hm] at h
    simp at h
  | ok store =>
    rw [hm] at h
    simp only [Except.ok.injEq] at h
    rw [← h]
    rw [List.map_replicate]
    exact ⟨_, rfl⟩

/-- Witness for C9: one input track on port 0 with one note-on message;
all four returned sub-lists are that same singleton list. -/
theorem C9_aliased_port_lists_witness :
    midi_to_absolute_time_tracks (fun _ => 0) [⟨some 0, [([0x90, 60, 100], 10)]⟩] =
      .ok (List.replicate 4 [⟨0x90, [60, 100], 0, 0, 0⟩]) ∧
    ∃ l, (List.replicate 4 [(⟨0x90, [60, 100], 0, 0, 0⟩ : PTrackAbsoluteTimeEvent)]) =
      List.replicate 4 l :=
  ⟨by decide,
   C9_aliased_port_lists (fun _ => 0) [⟨some 0, [([0x90, 60, 100], 10)]⟩] _ (by decide)⟩

/-- C10: `read_extended_variable_int` never fails on end of data or on
a `0x00` byte: when the next byte is `0x00` or the stream is at its
end, the loop returns the value accumulated so far — 0 when nothing
has been read — consuming nothing, with the `0x00` left in place. -/
theorem C10_read_extended_stops (s : List Nat) (acc : Nat)
    (h : s.head? = some 0x00 ∨ s.head? = none) :
    read_extended_variable_int_loop acc s = .ok (acc, s) ∧
    read_extended_variable_int s = .ok (0, s) := by
  have hmain : ∀ a, read_extended_variable_int_loop a s = .ok (a, s) := by
    intro a
    rcases h with h | h
    · cases s with
      | nil => simp at h
      | cons b t =>
        simp only [List.head?_cons, Option.some.injEq] at h
        subst h
        rw [read_extended_variable_int_loop]
        simp [peek_data_byte]
    · cases s with
      | nil =>
        rw [read_extended_variable_int_loop]
        simp [peek_data_byte]
      | cons b t => simp at h
  exact ⟨hmain acc, hmain 0⟩

/-- Witness for C10 at the stream `00 3F` with accumulator 5. -/
theorem C10_read_extended_stops_witness :
    read_extended_variable_int_loop 5 [0x00, 0x3F] = .ok (5, [0x00, 0x3F]) ∧
    read_extended_variable_int [0x00, 0x3F] = .ok (0, [0x00, 0x3F]) :=
  C10_read_extended_stops [0x00, 0x3F] 5 (Or.inl rfl)

end DamOkd
